import Mathlib

/-!
Verification development for the `golang-url-parser` repository
(`main.go`): a CLI that fetches a URL, classifies the response by
content type and renders an HTML summary, a JSON view, or a raw
preview.

The Go code is shallowly embedded: Go strings are modelled as Lean
`String`s (equivalently `List Char`); Go's byte-based `len`/slicing is
modelled at character granularity, which agrees with the source on
ASCII data.  External library calls (the `goquery` HTML parse, the
stdlib JSON syntax parse) enter the model as already-parsed values (a
list of anchors, a JSON syntax tree); all logic of `main.go` itself is
translated directly.
-/

/-! ### Go string primitives (`strings` package operations used by main.go) -/

/-- Model of Go `unicode.IsSpace`, restricted to the ASCII/Latin-1 space
characters (`'\t' '\n' '\v' '\f' '\r' ' '` plus U+0085 and U+00A0); further
Unicode category-Z characters are outside the model. -/
def goIsSpace (c : Char) : Bool :=
  c = ' ' || c = '\t' || c = '\n' || c = '\x0b' || c = '\x0c' || c = '\r' ||
  c = '\x85' || c = '\xa0'

/-- Model of Go `strings.TrimSpace` on character lists: drop leading and
trailing space characters. -/
def trimList (l : List Char) : List Char :=
  ((l.dropWhile goIsSpace).reverse.dropWhile goIsSpace).reverse

/-- Go `strings.TrimSpace`. -/
def goTrimSpace (s : String) : String :=
  (trimList s.toList).asString

/-- One scan step of Go `strings.ReplaceAll` for a nonempty pattern:
replace non-overlapping occurrences of `pat` by `rep`, left to right.
The scan consumes at least one input character per step, so input-length
fuel always suffices; `fuel` only makes the recursion structural.  (In
the matching branch the scan advances past the whole match: dropping
`pat.length - 1` characters of `rest` drops `pat.length` characters of
`c :: rest`.) -/
def replAllFuel (pat rep : List Char) : Nat → List Char → List Char
  | _, [] => []
  | 0, l => l
  | fuel + 1, c :: rest =>
    if pat ≠ [] ∧ pat.isPrefixOf (c :: rest) then
      rep ++ replAllFuel pat rep fuel (rest.drop (pat.length - 1))
    else
      c :: replAllFuel pat rep fuel rest

/-- Go `strings.ReplaceAll(l, pat, rep)` for a nonempty pattern. -/
def replAll (pat rep l : List Char) : List Char :=
  replAllFuel pat rep l.length l

/-- One pass of Go `strings.ReplaceAll(text, "  ", " ")`: each
non-overlapping pair of adjacent spaces becomes one space. -/
def collapsePass : List Char → List Char
  | [] => []
  | [c] => [c]
  | c :: d :: rest =>
    if c = ' ' ∧ d = ' ' then ' ' :: collapsePass rest
    else c :: collapsePass (d :: rest)

/-- Go `strings.Contains(text, "  ")`: the list has two adjacent spaces. -/
def hasDouble : List Char → Bool
  | [] => false
  | [_] => false
  | c :: d :: rest => decide (c = ' ' ∧ d = ' ') || hasDouble (d :: rest)

/-- The source's collapsing loop (`for strings.Contains(text, "  ") { ... }`)
with explicit fuel: iterate the pass while two adjacent spaces remain.
Each pass strictly shrinks a list that still has a double space
(`collapsePass_length_lt`), so input-length fuel reaches the fixed point
(`hasDouble_collapseLoop`); `fuel` only makes the recursion structural. -/
def collapseLoopFuel : Nat → List Char → List Char
  | 0, l => l
  | fuel + 1, l => if hasDouble l then collapseLoopFuel fuel (collapsePass l) else l

/-- The source's collapsing loop: iterate `collapsePass` until no two
adjacent spaces remain. -/
def collapseLoop (l : List Char) : List Char :=
  collapseLoopFuel l.length l

/-- Go `strings.HasPrefix`. -/
def goStartsWith (s pre : String) : Bool :=
  pre.toList.isPrefixOf s.toList

/-- Go `strings.HasSuffix`. -/
def goEndsWith (s suf : String) : Bool :=
  suf.toList.isSuffixOf s.toList

/-- Go `strings.Contains` on character lists. -/
def containsList (l sub : List Char) : Bool :=
  sub.isPrefixOf l ||
    match l with
    | [] => false
    | _ :: rest => containsList rest sub

/-- Go `strings.Contains`. -/
def goContains (s sub : String) : Bool :=
  containsList s.toList sub.toList

/-- Go `strings.LastIndex(s, "/")`-style search for a single character:
the index of the last occurrence, or `-1` if absent.  (Go indices are
byte offsets; on the ASCII URLs involved these coincide with character
offsets.) -/
def goLastIndex (s : String) (c : Char) : Int :=
  match s.toList.reverse.findIdx? (· = c) with
  | none => -1
  | some i => (s.length : Int) - 1 - i

/-- Go `strings.SplitN(s, sep, 2)` for a one-character separator: split at
the first occurrence only; a list of one or two pieces. -/
def goSplitN2 (s : String) (sep : Char) : List String :=
  match s.toList.findIdx? (· = sep) with
  | none => [s]
  | some i => [(s.toList.take i).asString, (s.toList.drop (i + 1)).asString]

/-- Go `strings.Split(s, "\n")` on character lists: all pieces, empty
pieces kept. -/
def splitLines : List Char → List (List Char)
  | [] => [[]]
  | c :: rest =>
    if c = '\n' then [] :: splitLines rest
    else
      match splitLines rest with
      | [] => [[c]]
      | l :: ls => (c :: l) :: ls

/-! ### Text sanitizer (`cleanLinkText`, `truncateText`) -/

/-- `cleanLinkText` from main.go, on character lists: trim, replace newline
and tab by spaces (a one-character `ReplaceAll` is a character map), then
collapse runs of spaces to a fixed point. -/
def cleanList (l : List Char) : List Char :=
  let t := trimList l
  let t := t.map (fun c => if c = '\n' then ' ' else c)
  let t := t.map (fun c => if c = '\t' then ' ' else c)
  collapseLoop t

/-- `cleanLinkText` from main.go. -/
def cleanLinkText (s : String) : String :=
  (cleanList s.toList).asString

/-- `truncateText` from main.go: at most `maxLength` characters, with an
ellipsis marker appended when truncation happened. -/
def truncateText (text : String) (maxLength : Nat) : String :=
  if text.length ≤ maxLength then text
  else (text.toList.take maxLength).asString ++ "..."

/-! ### URL resolver (`makeAbsoluteURL`) -/

/-- `makeAbsoluteURL` from main.go.  Argument order as in the source:
`makeAbsoluteURL(href, baseURL)`. -/
def makeAbsoluteURL (href baseURL : String) : String :=
  if goStartsWith href "http://" || goStartsWith href "https://" then
    href
  else if goStartsWith href "/" ∧ (goStartsWith baseURL "https://" ∨ goStartsWith baseURL "http://") then
    if goStartsWith baseURL "https://" then
      let tail := (baseURL.toList.drop 8).asString
      let parts := goSplitN2 tail '/'
      if parts.length > 1 then "https://" ++ parts.headI ++ href
      else "https://" ++ tail ++ href
    else
      let tail := (baseURL.toList.drop 7).asString
      let parts := goSplitN2 tail '/'
      if parts.length > 1 then "http://" ++ parts.headI ++ href
      else "http://" ++ tail ++ href
  else if goEndsWith baseURL "/" then
    baseURL ++ href
  else if goLastIndex baseURL '/' ≥ 8 then
    (baseURL.toList.take ((goLastIndex baseURL '/').toNat + 1)).asString ++ href
  else
    baseURL ++ "/" ++ href

/-! ### Content classifier (the dispatch in `parseURL`) -/

/-- The three extraction branches selected in `parseURL`. -/
inductive Extraction where
  | json
  | html
  | generic
deriving Repr, DecidableEq

/-- The content-type dispatch at the end of `parseURL`:
`application/json` is checked before `text/html`; anything else is generic. -/
def classifyContentType (contentType : String) : Extraction :=
  if goContains contentType "application/json" then Extraction.json
  else if goContains contentType "text/html" then Extraction.html
  else Extraction.generic

/-! ### JSON extractor (`parseJSONResponse` and helpers) -/

/-- JSON syntax tree: the result of a successful stdlib syntax parse.
Numbers are modelled as integers (the `PageResponse` shape carries an
`int` id; non-integral numerals are outside the model). -/
inductive Json where
  | null
  | bool (b : Bool)
  | num (n : Int)
  | str (s : String)
  | arr (elems : List Json)
  | obj (fields : List (String × Json))
deriving Repr

/-- `PageResponse` from main.go (the StructuredPage shape):
`id`, `slug`, `title`, `content`, `page_type`. -/
structure PageResponse where
  ID : Int
  Slug : String
  Title : String
  Content : String
  PageType : String
deriving Repr, DecidableEq

/-- The Go zero value of `PageResponse`, the state `json.Unmarshal`
starts from. -/
def zeroPage : PageResponse :=
  { ID := 0, Slug := "", Title := "", Content := "", PageType := "" }

/-- One field of a JSON object applied to a `PageResponse` under
`json.Unmarshal` rules: keys are matched against the field tags (Go's
additional ASCII case-insensitive fallback match is not modelled), a
`null` value leaves the field at its zero value, a value of the wrong
type is an unmarshalling error, unknown keys are ignored. -/
def setPageField (p : PageResponse) (key : String) (v : Json) : Except String PageResponse :=
  match key, v with
  | "id", .num n => .ok { p with ID := n }
  | "id", .null => .ok p
  | "id", _ => .error "json: cannot unmarshal value into field id of type int"
  | "slug", .str s => .ok { p with Slug := s }
  | "slug", .null => .ok p
  | "slug", _ => .error "json: cannot unmarshal value into field slug of type string"
  | "title", .str s => .ok { p with Title := s }
  | "title", .null => .ok p
  | "title", _ => .error "json: cannot unmarshal value into field title of type string"
  | "content", .str s => .ok { p with Content := s }
  | "content", .null => .ok p
  | "content", _ => .error "json: cannot unmarshal value into field content of type string"
  | "page_type", .str s => .ok { p with PageType := s }
  | "page_type", .null => .ok p
  | "page_type", _ => .error "json: cannot unmarshal value into field page_type of type string"
  | _, _ => .ok p

/-- `json.Unmarshal(body, &page)` for a `PageResponse` target, given the
parsed syntax tree: a top-level `null` succeeds leaving the zero value, a
top-level object folds its fields over `setPageField`, and any other
top-level value is an error. -/
def unmarshalPage : Json → Except String PageResponse
  | .null => .ok zeroPage
  | .obj fields => fields.foldlM (fun p kv => setPageField p kv.1 kv.2) zeroPage
  | _ => .error "json: cannot unmarshal value into Go value of type main.PageResponse"

/-! `marshalValue` models the stdlib `json.MarshalIndent(data, "", "  ")`
pretty printer.  String escaping, duplicate-key collapsing and the sorted
key order of Go maps are approximated (no claim depends on the exact
formatted text, only on its role in `displayGenericJSON`). -/

mutual

def marshalValue (ind : String) : Json → String
  | .null => "null"
  | .bool b => if b then "true" else "false"
  | .num n => toString n
  | .str s => "\"" ++ s ++ "\""
  | .arr [] => "[]"
  | .arr (x :: xs) => "[\n" ++ marshalElems (ind ++ "  ") (x :: xs) ++ "\n" ++ ind ++ "]"
  | .obj [] => "\x7b\x7d"
  | .obj (f :: fs) => "\x7b\n" ++ marshalFields (ind ++ "  ") (f :: fs) ++ "\n" ++ ind ++ "\x7d"

def marshalElems (ind : String) : List Json → String
  | [] => ""
  | [x] => ind ++ marshalValue ind x
  | x :: y :: xs => ind ++ marshalValue ind x ++ ",\n" ++ marshalElems ind (y :: xs)

def marshalFields (ind : String) : List (String × Json) → String
  | [] => ""
  | [(k, v)] => ind ++ "\"" ++ k ++ "\": " ++ marshalValue ind v
  | (k, v) :: f :: fs =>
    ind ++ "\"" ++ k ++ "\": " ++ marshalValue ind v ++ ",\n" ++ marshalFields ind (f :: fs)

end

/-- The output of `displayGenericJSON`: either the JSON-parse-error branch
(error message printed, raw body dumped verbatim), or the pretty-printed
value, 2000-character capped, with the top-level object keys when the
value is an object. -/
inductive JSONOutput where
  | parseError (raw : String)
  | pretty (shown : String) (truncated : Bool) (keys : Option (List String))
deriving Repr

/-- `displayGenericJSON` from main.go.  Its input is the result of the
stdlib syntax parse of the body (`none` = `json.Unmarshal` into
`interface{}` failed) together with the raw body text. -/
def displayGenericJSON (parsed : Option Json) (body : String) : JSONOutput :=
  match parsed with
  | none => JSONOutput.parseError body
  | some data =>
    let formatted := marshalValue "" data
    let shown :=
      if formatted.length > 2000 then formatted.take 2000 ++ "\n... [вывод сокращен]"
      else formatted
    let keys :=
      match data with
      | .obj fields => some (fields.map Prod.fst)
      | _ => none
    JSONOutput.pretty shown (formatted.length > 2000) keys

/-- The markdown-cleanup pass at the top of `displayContent`: remove
`**` and `#`, replace `&nbsp;` by a space (in source order). -/
def cleanedContent (content : String) : List Char :=
  replAll "&nbsp;".toList " ".toList
    (replAll "#".toList [] (replAll "**".toList [] content.toList))

/-- `displayContent` from main.go: split the cleaned content on newlines
and print every line whose trimmed form is non-blank, numbered `i+1`
where `i` is the line's index in the split.  The result lists the
printed `(number, line)` pairs. -/
def displayContent (content : String) : List (Nat × String) :=
  (splitLines (cleanedContent content)).enum.filterMap (fun p =>
    let line := trimList p.2
    if line ≠ [] then some (p.1 + 1, line.asString) else none)

/-- What `displayPageResponse` prints: the id/slug/title/page-type header
and, when the content is non-empty, the numbered content lines. -/
structure StructuredRender where
  id : Int
  slug : String
  title : String
  pageType : String
  contentSection : Option (List (Nat × String))
deriving Repr

/-- `displayPageResponse` from main.go. -/
def displayPageResponse (page : PageResponse) : StructuredRender :=
  { id := page.ID
    slug := page.Slug
    title := page.Title
    pageType := page.PageType
    contentSection :=
      if page.Content ≠ "" then some (displayContent page.Content) else none }

/-- The output of `parseJSONResponse`: the StructuredPage rendering or
the generic JSON view. -/
inductive JSONRender where
  | structured (r : StructuredRender)
  | generic (g : JSONOutput)
deriving Repr

/-- `parseJSONResponse` from main.go: try `json.Unmarshal` into
`PageResponse`; when it succeeds with a nonzero `ID`, render the
structured page, otherwise fall through to `displayGenericJSON`.
`parsed` is the stdlib syntax parse of `body` (`none` = invalid JSON,
so both unmarshal attempts fail). -/
def parseJSONResponse (parsed : Option Json) (body : String) : JSONRender :=
  match parsed with
  | some j =>
    match unmarshalPage j with
    | .ok page =>
      if page.ID ≠ 0 then JSONRender.structured (displayPageResponse page)
      else JSONRender.generic (displayGenericJSON (some j) body)
    | .error _ => JSONRender.generic (displayGenericJSON (some j) body)
  | none => JSONRender.generic (displayGenericJSON none body)

/-! ### Generic extractor (`parseGenericResponse`) -/

/-- What `parseGenericResponse` prints: the content type, whether the
preview was truncated, the shown text and the reported total length. -/
structure RawPreview where
  contentType : String
  truncated : Bool
  shown : String
  totalLength : Nat
deriving Repr, DecidableEq

/-- `parseGenericResponse` from main.go: bodies over 1000 characters show
only the first 1000 (the true total length is reported); shorter bodies
are shown in full. -/
def parseGenericResponse (body contentType : String) : RawPreview :=
  let content := body
  let contentLength := content.length
  if contentLength > 1000 then
    { contentType := contentType
      truncated := true
      shown := content.take 1000
      totalLength := contentLength }
  else
    { contentType := contentType
      truncated := false
      shown := content
      totalLength := contentLength }

/-! ### HTML extractor (`extractAndShowInfo`)

The goquery document enters the model as its list of anchor elements in
document order, each with its visible text and optional `href`
attribute.  The title/description lookups and the `h1`/`h2`/`p`/`img`
counters are plain goquery queries not referenced by any claim and are
omitted; `doc.Find("a").Length()` is the number of anchors. -/

/-- An anchor element: visible text and optional `href` attribute. -/
structure Anchor where
  text : String
  href : Option String
deriving Repr, DecidableEq

/-- One displayed link: sanitized text, resolved URL, and the
50-character-capped form actually printed. -/
structure LinkEntry where
  displayText : String
  absoluteURL : String
  displayURL : String
deriving Repr, DecidableEq

/-- The body of the `doc.Find("a").Each` callback in `extractAndShowInfo`
for one anchor (the link cap aside): `none` when the anchor is skipped
(no `href`, over-long text, or a `#`/`javascript:`/`mailto:` link),
otherwise the link entry, with the fixed placeholder substituted when
the sanitized text is empty. -/
def processAnchor (baseURL : String) (a : Anchor) : Option LinkEntry :=
  let text := goTrimSpace a.text
  match a.href with
  | none => none
  | some href =>
    if text.length > 100 then none
    else if goStartsWith href "#" || goStartsWith href "javascript:" || goStartsWith href "mailto:" then
      none
    else
      let text := cleanLinkText text
      let text := if text = "" then "[без текста]" else text
      let fullURL := makeAbsoluteURL href baseURL
      let displayURL :=
        if fullURL.length > 50 then (fullURL.toList.take 47).asString ++ "..." else fullURL
      some { displayText := text, absoluteURL := fullURL, displayURL := displayURL }

/-- One step of the anchor loop: once 10 links are collected further
anchors are skipped (the callback returns early), otherwise a processed
anchor appends its entry. -/
def linkStep (baseURL : String) (acc : List LinkEntry) (a : Anchor) : List LinkEntry :=
  if acc.length ≥ 10 then acc
  else
    match processAnchor baseURL a with
    | some e => acc ++ [e]
    | none => acc

/-- The collected links of `extractAndShowInfo`: the anchor loop over the
whole document. -/
def extractLinks (baseURL : String) (anchors : List Anchor) : List LinkEntry :=
  anchors.foldl (linkStep baseURL) []

/-- The goquery document, reduced to its anchors in document order. -/
structure Document where
  anchors : List Anchor
deriving Repr

/-- The link-related output of `extractAndShowInfo`: the collected links
and the total-anchor statistic `doc.Find("a").Length()`. -/
structure HTMLSummary where
  links : List LinkEntry
  totalLinkCount : Nat
deriving Repr, DecidableEq

/-- `extractAndShowInfo` from main.go (link inventory and link count). -/
def extractAndShowInfo (doc : Document) (baseURL : String) : HTMLSummary :=
  { links := extractLinks baseURL doc.anchors
    totalLinkCount := doc.anchors.length }

/-! ### Helper lemmas -/

theorem collapsePass_length_le : ∀ l : List Char, (collapsePass l).length ≤ l.length
  | [] => by simp [collapsePass]
  | [c] => by simp [collapsePass]
  | c :: d :: rest => by
    by_cases h : c = ' ' ∧ d = ' '
    · have := collapsePass_length_le rest
      simp only [collapsePass, if_pos h, List.length_cons]
      omega
    · have := collapsePass_length_le (d :: rest)
      simp only [collapsePass, if_neg h, List.length_cons] at this ⊢
      omega

theorem collapsePass_length_lt :
    ∀ l : List Char, hasDouble l = true → (collapsePass l).length < l.length
  | [], h => by simp [hasDouble] at h
  | [c], h => by simp [hasDouble] at h
  | c :: d :: rest, h => by
    by_cases hc : c = ' ' ∧ d = ' '
    · have := collapsePass_length_le rest
      simp only [collapsePass, if_pos hc, List.length_cons]
      omega
    · have hd : hasDouble (d :: rest) = true := by
        simp only [hasDouble, Bool.or_eq_true, decide_eq_true_eq] at h
        exact h.resolve_left hc
      have := collapsePass_length_lt (d :: rest) hd
      simp only [collapsePass, if_neg hc, List.length_cons] at this ⊢
      omega

theorem hasDouble_collapseLoopFuel :
    ∀ (fuel : Nat) (l : List Char), l.length ≤ fuel →
      hasDouble (collapseLoopFuel fuel l) = false
  | 0, l, h => by
    have : l = [] := List.length_eq_zero.mp (Nat.le_zero.mp h)
    subst this
    simp [collapseLoopFuel, hasDouble]
  | fuel + 1, l, h => by
    by_cases hd : hasDouble l = true
    · have hlt := collapsePass_length_lt l hd
      have : (collapsePass l).length ≤ fuel := by omega
      simpa [collapseLoopFuel, hd] using hasDouble_collapseLoopFuel fuel (collapsePass l) this
    · simp only [collapseLoopFuel, Bool.not_eq_true] at hd ⊢
      simp [hd]

/-- The collapsing loop reaches its fixed point: its result has no two
adjacent spaces. -/
theorem hasDouble_collapseLoop (l : List Char) : hasDouble (collapseLoop l) = false :=
  hasDouble_collapseLoopFuel l.length l le_rfl

theorem length_asString (l : List Char) : l.asString.length = l.length := rfl

/-! ### C4: root-relative href against a bare-authority base -/

/-- C4: the URL resolver applied to base URL `"https://example.com"`
(a base with no path at all) and href `"/about"` yields
`"https://example.com/about"`, with no doubled or malformed separator at
the authority boundary. -/
theorem makeAbsoluteURL_bare_authority_root_href :
    makeAbsoluteURL "/about" "https://example.com" = "https://example.com/about" := by
  decide

/-! ### C5: path-relative href replaces everything after the base's last slash -/

/-- C5: the URL resolver applied to base URL
`"https://example.com/blog/post1"` and the path-relative href
`"images/a.png"` yields `"https://example.com/blog/images/a.png"`:
everything after the last slash of the base is replaced by the href. -/
theorem makeAbsoluteURL_path_relative_href :
    makeAbsoluteURL "images/a.png" "https://example.com/blog/post1" =
      "https://example.com/blog/images/a.png" := by
  decide

/-! ### C6: generic preview boundary at 1000 characters -/

/-- C6: a generic body of exactly 1000 characters is shown in full with
no truncation marker; a body of 1001 characters is truncated to its
first 1000 characters with the truncation marker, and the reported
total length is 1001. -/
theorem parseGenericResponse_boundary (body contentType : String) :
    (body.length = 1000 →
      parseGenericResponse body contentType =
        { contentType := contentType, truncated := false, shown := body,
          totalLength := 1000 }) ∧
    (body.length = 1001 →
      parseGenericResponse body contentType =
        { contentType := contentType, truncated := true, shown := body.take 1000,
          totalLength := 1001 }) := by
  constructor
  · intro h
    simp [parseGenericResponse, h]
  · intro h
    simp [parseGenericResponse, h]

/-- Witness for C6 at concrete bodies of 1000 and 1001 repeated characters. -/
theorem parseGenericResponse_boundary_witness :
    parseGenericResponse (List.replicate 1000 'a').asString "application/pdf" =
      { contentType := "application/pdf", truncated := false,
        shown := (List.replicate 1000 'a').asString, totalLength := 1000 } ∧
    parseGenericResponse (List.replicate 1001 'a').asString "application/pdf" =
      { contentType := "application/pdf", truncated := true,
        shown := ((List.replicate 1001 'a').asString).take 1000, totalLength := 1001 } :=
  ⟨(parseGenericResponse_boundary (List.replicate 1000 'a').asString "application/pdf").1
     (by rw [length_asString, List.length_replicate]),
   (parseGenericResponse_boundary (List.replicate 1001 'a').asString "application/pdf").2
     (by rw [length_asString, List.length_replicate])⟩

/-! ### C7: invalid JSON falls back to a verbatim raw dump -/

/-- C7: for a body that is not valid JSON at all (the syntax parse
fails), the JSON extractor prints the error condition and dumps the raw
unparsed body verbatim, with no truncation; the failure is recovered
locally — `parseJSONResponse` is total and still produces a rendering. -/
theorem parseJSONResponse_invalid_json_raw_dump (body : String) :
    parseJSONResponse none body = JSONRender.generic (JSONOutput.parseError body) := rfl

/-! ### C9: `application/json` is checked before `text/html` -/

/-- C9: the content classifier checks for `application/json` before
`text/html`: any content-type string containing both substrings routes
to the JSON extractor. -/
theorem classifyContentType_json_checked_first (contentType : String)
    (hj : goContains contentType "application/json" = true)
    (hh : goContains contentType "text/html" = true) :
    classifyContentType contentType = Extraction.json := by
  simp [classifyContentType, hj]

/-- Witness for C9 at a concrete content type containing both substrings. -/
theorem classifyContentType_json_checked_first_witness :
    classifyContentType "application/json; text/html" = Extraction.json :=
  classifyContentType_json_checked_first "application/json; text/html"
    (by decide) (by decide)

/-! ### C10: empty sanitized link text gets a placeholder, not a skip -/

/-- C10: an anchor that passes the href/length/scheme filters but whose
sanitized visible text is empty is not skipped: the anchor-loop body
substitutes the fixed placeholder token as the display text and still
emits the link entry. -/
theorem processAnchor_empty_text_placeholder (baseURL : String) (a : Anchor) (href : String)
    (hhref : a.href = some href)
    (hlen : (goTrimSpace a.text).length ≤ 100)
    (hscheme : (goStartsWith href "#" || goStartsWith href "javascript:" ||
                goStartsWith href "mailto:") = false)
    (hempty : cleanLinkText (goTrimSpace a.text) = "") :
    processAnchor baseURL a =
      some { displayText := "[без текста]",
             absoluteURL := makeAbsoluteURL href baseURL,
             displayURL :=
               if (makeAbsoluteURL href baseURL).length > 50 then
                 ((makeAbsoluteURL href baseURL).toList.take 47).asString ++ "..."
               else makeAbsoluteURL href baseURL } := by
  simp only [processAnchor, hhref]
  rw [if_neg (by omega), if_neg (by simp [hscheme]), hempty]
  simp

/-- Witness for C10: a whitespace-only anchor text with a plain relative
href yields the placeholder entry. -/
theorem processAnchor_empty_text_placeholder_witness :
    processAnchor "https://e.com" { text := " ", href := some "x" } =
      some { displayText := "[без текста]", absoluteURL := "https://e.com/x",
             displayURL := "https://e.com/x" } :=
  (processAnchor_empty_text_placeholder "https://e.com" { text := " ", href := some "x" } "x"
      rfl (by decide) (by decide) (by decide)).trans (by decide)

/-! ### C3: the link cap truncates `links` but not `totalLinkCount` -/

theorem foldl_linkStep_length (baseURL : String) :
    ∀ (anchors : List Anchor) (acc : List LinkEntry),
      (∀ a ∈ anchors, (processAnchor baseURL a).isSome) →
      acc.length ≤ 10 →
      (anchors.foldl (linkStep baseURL) acc).length = min 10 (acc.length + anchors.length)
  | [], acc, _, hle => by
    simp only [List.foldl_nil, List.length_nil, Nat.add_zero]
    omega
  | a :: rest, acc, hall, hle => by
    have ha := hall a (by simp)
    by_cases hcap : acc.length ≥ 10
    · have h10 : acc.length = 10 := by omega
      simp only [List.foldl_cons, linkStep, if_pos hcap]
      rw [foldl_linkStep_length baseURL rest acc (fun x hx => hall x (by simp [hx])) hle]
      simp only [List.length_cons, h10]
      omega
    · obtain ⟨e, he⟩ := Option.isSome_iff_exists.mp ha
      simp only [List.foldl_cons, linkStep, if_neg hcap, he]
      rw [foldl_linkStep_length baseURL rest (acc ++ [e])
            (fun x hx => hall x (by simp [hx]))
            (by simp only [List.length_append, List.length_singleton, List.length_cons,
                  List.length_nil]; omega)]
      simp only [List.length_append, List.length_singleton, List.length_cons, List.length_nil]
      omega

/-- C3 (amended): for a document of 20 anchors that all pass the
href/length/scheme filters, extraction collects exactly 10 link entries
while `totalLinkCount` still reports all 20 anchors. -/
theorem extractAndShowInfo_cap_and_total (doc : Document) (baseURL : String)
    (h20 : doc.anchors.length = 20)
    (hall : ∀ a ∈ doc.anchors, (processAnchor baseURL a).isSome) :
    (extractAndShowInfo doc baseURL).links.length = 10 ∧
    (extractAndShowInfo doc baseURL).totalLinkCount = 20 := by
  constructor
  · show (extractLinks baseURL doc.anchors).length = 10
    unfold extractLinks
    rw [foldl_linkStep_length baseURL doc.anchors [] hall (by simp)]
    simp [h20]
  · simp [extractAndShowInfo, h20]

/-- Witness for C3 (amended) at a concrete 20-anchor document whose
anchors all pass the filters. -/
theorem extractAndShowInfo_cap_and_total_witness :
    (extractAndShowInfo { anchors := List.replicate 20 { text := "t", href := some "x" } }
        "https://e.com").links.length = 10 ∧
    (extractAndShowInfo { anchors := List.replicate 20 { text := "t", href := some "x" } }
        "https://e.com").totalLinkCount = 20 :=
  extractAndShowInfo_cap_and_total
    { anchors := List.replicate 20 { text := "t", href := some "x" } }
    "https://e.com" (by decide) (by decide)

/-- C3 as stated is false: a document of 20 anchors that all lack an
`href` attribute yields no link entries at all (every anchor is
filtered), while `totalLinkCount` still reports 20. -/
theorem extractAndShowInfo_twenty_anchors_not_always_ten :
    ({ anchors := List.replicate 20 { text := "t", href := none } } : Document).anchors.length
        = 20 ∧
    ¬ ((extractAndShowInfo { anchors := List.replicate 20 { text := "t", href := none } }
        "https://e.com").links.length = 10) := by
  decide

/-! ### C2: content line numbering -/

/-- C2 as stated is false: rendering `"a\n\nb"` numbers the non-blank
lines 1 and 3, not 1 and 2 — the blank middle line is hidden from output
but still consumes a number, because the printed number is the line's
index in the split, not a counter over non-blank lines. -/
theorem displayContent_blank_lines_consume_numbers :
    displayContent "a\n\nb" = [(1, "a"), (3, "b")] ∧
    displayContent "a\n\nb" ≠ [(1, "a"), (2, "b")] := by
  decide

/-- C2 (amended): a pair `(n, line)` is rendered by the content cleanup
pass exactly when `n = i + 1` for the index `i` of a line of the cleaned
content whose trimmed form is `line` and non-blank: each non-blank line
is numbered by its 1-based position among all lines, and blank lines are
hidden from output but still consume numbers. -/
theorem displayContent_numbering (content : String) (n : Nat) (line : String) :
    (n, line) ∈ displayContent content ↔
      ∃ (i : Nat) (h : i < (splitLines (cleanedContent content)).length),
        n = i + 1 ∧
        line = (trimList ((splitLines (cleanedContent content))[i])).asString ∧
        trimList ((splitLines (cleanedContent content))[i]) ≠ [] := by
  simp only [displayContent, List.mem_filterMap, List.mem_enum_iff_getElem?]
  constructor
  · rintro ⟨⟨i, raw⟩, hget, hf⟩
    obtain ⟨hlt, hraw⟩ := List.getElem?_eq_some_iff.mp hget
    by_cases hne : trimList raw ≠ []
    · rw [if_pos hne] at hf
      obtain ⟨hn, hline⟩ := Prod.mk.injEq .. ▸ Option.some.injEq .. ▸ hf
      exact ⟨i, hlt, by omega, by rw [← hline, hraw], by rw [hraw]; exact hne⟩
    · rw [if_neg hne] at hf
      exact absurd hf (by simp)
  · rintro ⟨i, h, hn, hline, hne⟩
    refine ⟨(i, (splitLines (cleanedContent content))[i]), ?_, ?_⟩
    · exact List.getElem?_eq_some_iff.mpr ⟨h, rfl⟩
    · rw [if_pos hne, hn, hline]

/-! ### C1: StructuredPage rendering exactly on decode success with nonzero id -/

/-- C1: a JSON body renders as a StructuredPage exactly when the
`PageResponse` decode succeeds and the decoded `id` is nonzero; in
particular the zero-id object `\x7b"id": 0, "slug": "x"\x7d` decodes
successfully but falls through to the generic JSON view. -/
theorem parseJSONResponse_structured_iff :
    (∀ (j : Json) (body : String),
      (∃ r, parseJSONResponse (some j) body = JSONRender.structured r) ↔
      (∃ page, unmarshalPage j = Except.ok page ∧ page.ID ≠ 0)) ∧
    (∃ g, parseJSONResponse
        (some (Json.obj [("id", Json.num 0), ("slug", Json.str "x")]))
        "\x7b\"id\": 0, \"slug\": \"x\"\x7d" = JSONRender.generic g) := by
  constructor
  · intro j body
    cases h : unmarshalPage j with
    | ok page =>
      by_cases hid : page.ID = 0
      · simp [parseJSONResponse, h, hid]
      · simp [parseJSONResponse, h, hid]
    | error e =>
      simp [parseJSONResponse, h]
  · exact ⟨_, rfl⟩

/-! ### C8: idempotence of the link-text sanitizer -/

theorem head?_dropWhile_not (p : Char → Bool) :
    ∀ (l : List Char) (c : Char), (l.dropWhile p).head? = some c → p c = false
  | [], c, h => by simp [List.dropWhile] at h
  | a :: rest, c, h => by
    by_cases hpa : p a = true
    · rw [List.dropWhile_cons, if_pos hpa] at h
      exact head?_dropWhile_not p rest c h
    · rw [List.dropWhile_cons, if_neg hpa] at h
      simp only [List.head?_cons, Option.some.injEq] at h
      subst h
      simpa using hpa

theorem dropWhile_eq_self_of_head? (p : Char → Bool) (l : List Char)
    (h : ∀ c, l.head? = some c → p c = false) : l.dropWhile p = l := by
  cases l with
  | nil => rfl
  | cons a rest => rw [List.dropWhile_cons, if_neg (by simp [h a rfl])]

theorem head?_trimList_not_space (l : List Char) (c : Char)
    (h : (trimList l).head? = some c) : goIsSpace c = false := by
  unfold trimList at h
  rw [List.head?_reverse] at h
  have hsuf := List.dropWhile_suffix (l := (l.dropWhile goIsSpace).reverse) goIsSpace
  obtain ⟨t, ht⟩ := hsuf
  have hne : ((l.dropWhile goIsSpace).reverse.dropWhile goIsSpace) ≠ [] := by
    intro hnil
    rw [hnil] at h
    simp at h
  have hL : ((l.dropWhile goIsSpace).reverse).getLast? = some c := by
    rw [← ht, List.getLast?_append_of_ne_nil t hne]
    exact h
  rw [List.getLast?_reverse] at hL
  exact head?_dropWhile_not goIsSpace _ c hL

theorem getLast?_trimList_not_space (l : List Char) (c : Char)
    (h : (trimList l).getLast? = some c) : goIsSpace c = false := by
  unfold trimList at h
  rw [List.getLast?_reverse] at h
  exact head?_dropWhile_not goIsSpace _ c h

theorem trimList_eq_self (l : List Char)
    (hh : ∀ c, l.head? = some c → goIsSpace c = false)
    (hl : ∀ c, l.getLast? = some c → goIsSpace c = false) : trimList l = l := by
  unfold trimList
  rw [dropWhile_eq_self_of_head? goIsSpace l hh]
  rw [dropWhile_eq_self_of_head? goIsSpace l.reverse
        (fun c hc => hl c (by rwa [List.head?_reverse] at hc))]
  exact List.reverse_reverse l

theorem mem_collapsePass : ∀ (l : List Char) (x : Char), x ∈ collapsePass l → x ∈ l
  | [], x, h => by simp [collapsePass] at h
  | [a], x, h => by simpa [collapsePass] using h
  | a :: b :: rest, x, h => by
    by_cases hab : a = ' ' ∧ b = ' '
    · rw [collapsePass, if_pos hab] at h
      rcases List.mem_cons.mp h with h | h
      · exact h ▸ (by simp [hab.1])
      · exact List.mem_cons_of_mem a (List.mem_cons_of_mem b (mem_collapsePass rest x h))
    · rw [collapsePass, if_neg hab] at h
      rcases List.mem_cons.mp h with h | h
      · simp [h]
      · exact List.mem_cons_of_mem a (mem_collapsePass (b :: rest) x h)

theorem mem_collapseLoopFuel :
    ∀ (fuel : Nat) (l : List Char) (x : Char), x ∈ collapseLoopFuel fuel l → x ∈ l
  | 0, l, x, h => h
  | fuel + 1, l, x, h => by
    rw [collapseLoopFuel] at h
    by_cases hd : hasDouble l = true
    · rw [if_pos hd] at h
      exact mem_collapsePass l x (mem_collapseLoopFuel fuel (collapsePass l) x h)
    · rwa [if_neg hd] at h

theorem head?_collapsePass : ∀ l : List Char, (collapsePass l).head? = l.head?
  | [] => rfl
  | [_] => rfl
  | a :: b :: rest => by
    by_cases hab : a = ' ' ∧ b = ' '
    · rw [collapsePass, if_pos hab]
      simp [hab.1]
    · rw [collapsePass, if_neg hab]
      rfl

theorem head?_collapseLoopFuel :
    ∀ (fuel : Nat) (l : List Char), (collapseLoopFuel fuel l).head? = l.head?
  | 0, _ => rfl
  | fuel + 1, l => by
    rw [collapseLoopFuel]
    by_cases hd : hasDouble l = true
    · rw [if_pos hd, head?_collapseLoopFuel fuel (collapsePass l), head?_collapsePass]
    · rw [if_neg hd]

theorem getLast?_collapsePass : ∀ l : List Char, (collapsePass l).getLast? = l.getLast?
  | [] => rfl
  | [_] => rfl
  | a :: b :: rest => by
    by_cases hab : a = ' ' ∧ b = ' '
    · rw [collapsePass, if_pos hab]
      cases rest with
      | nil => simp [collapsePass, hab.2]
      | cons r rs =>
        have ih := getLast?_collapsePass (r :: rs)
        cases hcp : collapsePass (r :: rs) with
        | nil =>
          have hh := head?_collapsePass (r :: rs)
          rw [hcp] at hh
          simp at hh
        | cons y ys =>
          rw [hcp] at ih
          rw [List.getLast?_cons_cons, ih, List.getLast?_cons_cons,
            List.getLast?_cons_cons]
    · rw [collapsePass, if_neg hab]
      have ih := getLast?_collapsePass (b :: rest)
      cases hcp : collapsePass (b :: rest) with
      | nil =>
        have hh := head?_collapsePass (b :: rest)
        rw [hcp] at hh
        simp at hh
      | cons y ys =>
        rw [hcp] at ih
        rw [List.getLast?_cons_cons, ih, List.getLast?_cons_cons]

theorem getLast?_collapseLoopFuel :
    ∀ (fuel : Nat) (l : List Char), (collapseLoopFuel fuel l).getLast? = l.getLast?
  | 0, _ => rfl
  | fuel + 1, l => by
    rw [collapseLoopFuel]
    by_cases hd : hasDouble l = true
    · rw [if_pos hd, getLast?_collapseLoopFuel fuel (collapsePass l), getLast?_collapsePass]
    · rw [if_neg hd]

theorem collapseLoopFuel_nil (fuel : Nat) : collapseLoopFuel fuel [] = [] := by
  cases fuel with
  | zero => rfl
  | succ n => simp [collapseLoopFuel, hasDouble]

theorem collapseLoopFuel_eq_self (fuel : Nat) (l : List Char)
    (h : hasDouble l = false) : collapseLoopFuel fuel l = l := by
  cases fuel with
  | zero => rfl
  | succ n => simp [collapseLoopFuel, h]

theorem cleanList_eq (l : List Char) :
    cleanList l =
      collapseLoop (((trimList l).map (fun c => if c = '\n' then ' ' else c)).map
        (fun c => if c = '\t' then ' ' else c)) := rfl

theorem mem_collapseLoop (l : List Char) (x : Char) (h : x ∈ collapseLoop l) : x ∈ l :=
  mem_collapseLoopFuel l.length l x h

theorem ne_of_not_space (c : Char) (h : goIsSpace c = false) :
    c ≠ ' ' ∧ c ≠ '\n' ∧ c ≠ '\t' := by
  refine ⟨?_, ?_, ?_⟩ <;> rintro rfl <;> revert h <;> decide

theorem map_eq_self_of_forall (l : List Char) (f : Char → Char)
    (h : ∀ c ∈ l, f c = c) : l.map f = l := by
  rw [List.map_congr_left h]
  simp

theorem cleanList_chars (l : List Char) (x : Char) (hx : x ∈ cleanList l) :
    x ≠ '\n' ∧ x ≠ '\t' := by
  have hx2 : x ∈ ((trimList l).map (fun c => if c = '\n' then ' ' else c)).map
      (fun c => if c = '\t' then ' ' else c) :=
    mem_collapseLoop _ x (cleanList_eq l ▸ hx)
  obtain ⟨y, hy, hyx⟩ := List.mem_map.mp hx2
  obtain ⟨z, hz, hzy⟩ := List.mem_map.mp hy
  rw [← hyx, ← hzy]
  by_cases h1 : z = '\n'
  · subst h1
    exact ⟨by decide, by decide⟩
  · by_cases h2 : z = '\t'
    · subst h2
      exact ⟨by decide, by decide⟩
    · simp only [if_neg h1, if_neg h2]
      exact ⟨h1, h2⟩

theorem head?_cleanList_not_space (l : List Char) (c : Char)
    (h : (cleanList l).head? = some c) : goIsSpace c = false := by
  rw [cleanList_eq, collapseLoop, head?_collapseLoopFuel, List.head?_map, List.head?_map] at h
  obtain ⟨y, hy, hyc⟩ := Option.map_eq_some'.mp h
  obtain ⟨z, hz, hzy⟩ := Option.map_eq_some'.mp hy
  have hznos := head?_trimList_not_space l z hz
  obtain ⟨_, hz2, hz3⟩ := ne_of_not_space z hznos
  have hcz : c = z := by
    rw [← hyc, ← hzy]
    simp [hz2, hz3]
  rw [hcz]
  exact hznos

theorem getLast?_cleanList_not_space (l : List Char) (c : Char)
    (h : (cleanList l).getLast? = some c) : goIsSpace c = false := by
  rw [cleanList_eq, collapseLoop, getLast?_collapseLoopFuel, List.getLast?_map,
    List.getLast?_map] at h
  obtain ⟨y, hy, hyc⟩ := Option.map_eq_some'.mp h
  obtain ⟨z, hz, hzy⟩ := Option.map_eq_some'.mp hy
  have hznos := getLast?_trimList_not_space l z hz
  obtain ⟨_, hz2, hz3⟩ := ne_of_not_space z hznos
  have hcz : c = z := by
    rw [← hyc, ← hzy]
    simp [hz2, hz3]
  rw [hcz]
  exact hznos

theorem hasDouble_cleanList (l : List Char) : hasDouble (cleanList l) = false := by
  rw [cleanList_eq]
  exact hasDouble_collapseLoop _

theorem cleanList_idem (l : List Char) : cleanList (cleanList l) = cleanList l := by
  have htrim : trimList (cleanList l) = cleanList l :=
    trimList_eq_self _ (head?_cleanList_not_space l) (getLast?_cleanList_not_space l)
  have hmap1 : (cleanList l).map (fun c => if c = '\n' then ' ' else c) = cleanList l :=
    map_eq_self_of_forall _ _ (fun c hc => if_neg (cleanList_chars l c hc).1)
  have hmap2 : (cleanList l).map (fun c => if c = '\t' then ' ' else c) = cleanList l :=
    map_eq_self_of_forall _ _ (fun c hc => if_neg (cleanList_chars l c hc).2)
  rw [cleanList_eq (cleanList l), htrim, hmap1, hmap2, collapseLoop]
  exact collapseLoopFuel_eq_self _ _ (hasDouble_cleanList l)

theorem toList_asString (l : List Char) : l.asString.toList = l := rfl

/-- C8: the link-text sanitizer `cleanLinkText` is idempotent: applying
it twice gives the same result as applying it once, for every string. -/
theorem cleanLinkText_idempotent (s : String) :
    cleanLinkText (cleanLinkText s) = cleanLinkText s := by
  unfold cleanLinkText
  rw [toList_asString, cleanList_idem]
